import Mathlib

/-!
Shallow embedding, in Lean 4, of the credential and token subsystem of the
group-chat backend (handlers `register_user.ts`, `login_user.ts`,
`send_message.ts`, `get_messages.ts`, `delete_message.ts`, and the tRPC
router `index.ts`), together with theorems settling the spec claims.

JavaScript strings are modelled as `List Char`; byte buffers as `List Nat`
(every entry `< 256` where it matters).  The PBKDF2 and SHA-256 primitives
are external library calls (`node:crypto`), so they enter the model as
function parameters; theorems that depend on their cryptographic behaviour
carry explicit hypotheses (output length, distinctness across iteration
counts), discharged at concrete stand-in functions in witnesses.
-/

namespace Chat

/-! ## String helpers: JS `String.prototype.split` on a single character -/

/-- `s.split(sep)` for a one-character separator, JS semantics:
splitting the empty string gives `[""]`, and separators at the ends
produce empty fields. -/
def splitOnChar (sep : Char) : List Char → List (List Char)
  | [] => [[]]
  | c :: rest =>
    if c = sep then [] :: splitOnChar sep rest
    else
      match splitOnChar sep rest with
      | [] => [[c]]
      | h :: t => (c :: h) :: t

theorem splitOnChar_ne_nil (sep : Char) : ∀ l, splitOnChar sep l ≠ [] := by
  intro l
  induction l with
  | nil => simp [splitOnChar]
  | cons c rest ih =>
    simp only [splitOnChar]
    split
    · simp
    · split
      · simp
      · simp

theorem splitOnChar_sepFree (sep : Char) (a : List Char)
    (h : ∀ c ∈ a, c ≠ sep) : splitOnChar sep a = [a] := by
  induction a with
  | nil => rfl
  | cons c rest ih =>
    have hc : c ≠ sep := h c (List.mem_cons_self c rest)
    have hrest : ∀ x ∈ rest, x ≠ sep := fun x hx => h x (List.mem_cons_of_mem c hx)
    simp only [splitOnChar, if_neg hc, ih hrest]

theorem splitOnChar_append_sep (sep : Char) (a b : List Char)
    (h : ∀ c ∈ a, c ≠ sep) :
    splitOnChar sep (a ++ sep :: b) = a :: splitOnChar sep b := by
  induction a with
  | nil => simp [splitOnChar]
  | cons c rest ih =>
    have hc : c ≠ sep := h c (List.mem_cons_self c rest)
    have hrest : ∀ x ∈ rest, x ≠ sep := fun x hx => h x (List.mem_cons_of_mem c hx)
    simp only [List.cons_append, splitOnChar, if_neg hc]
    rw [show rest.append (sep :: b) = rest ++ sep :: b from rfl, ih hrest]

theorem splitOnChar_three (sep : Char) (a b c : List Char)
    (ha : ∀ x ∈ a, x ≠ sep) (hb : ∀ x ∈ b, x ≠ sep) (hc : ∀ x ∈ c, x ≠ sep) :
    splitOnChar sep (a ++ sep :: (b ++ sep :: c)) = [a, b, c] := by
  rw [splitOnChar_append_sep sep a _ ha, splitOnChar_append_sep sep b c hb,
    splitOnChar_sepFree sep c hc]

/-! ## Decimal digits (the model of `JSON.stringify` on numbers) -/

/-- One decimal digit character for `0 ≤ m ≤ 9`. -/
def decDigitChar (m : Nat) : Char := Char.ofNat (48 + m % 10)

/-- Fuel-driven decimal printer (most significant digit first). -/
def natToDigitsAux : Nat → Nat → List Char → List Char
  | 0, _, acc => acc
  | fuel + 1, n, acc =>
    if n < 10 then decDigitChar n :: acc
    else natToDigitsAux fuel (n / 10) (decDigitChar (n % 10) :: acc)

/-- The decimal digit string of `n`, as `JSON.stringify` prints a
non-negative integer. -/
def natToDigits (n : Nat) : List Char := natToDigitsAux (n + 1) n []

/-- Reads a decimal digit string back into a number. -/
def natOfDigits (l : List Char) : Nat :=
  l.foldl (fun a c => a * 10 + (c.toNat - 48)) 0

theorem decDigitChar_toNat (m : Nat) (h : m < 10) :
    (decDigitChar m).toNat = 48 + m := by
  interval_cases m <;> rfl

theorem natToDigitsAux_acc : ∀ (fuel n : Nat) (acc : List Char),
    natToDigitsAux fuel n acc = natToDigitsAux fuel n [] ++ acc
  | 0, _, _ => by simp [natToDigitsAux]
  | fuel + 1, n, acc => by
    simp only [natToDigitsAux]
    split
    · simp
    · rw [natToDigitsAux_acc fuel (n / 10) (decDigitChar (n % 10) :: acc),
        natToDigitsAux_acc fuel (n / 10) [decDigitChar (n % 10)]]
      simp

theorem mem_natToDigitsAux : ∀ (fuel n : Nat) (acc : List Char) (c : Char),
    c ∈ natToDigitsAux fuel n acc → c ∈ acc ∨ ∃ m, m < 10 ∧ c = decDigitChar m
  | 0, _, acc, c => by simp [natToDigitsAux]; tauto
  | fuel + 1, n, acc, c => by
    simp only [natToDigitsAux]
    split
    · intro hmem
      rcases List.mem_cons.mp hmem with h | h
      · exact Or.inr ⟨n, by omega, h⟩
      · exact Or.inl h
    · intro hmem
      rcases mem_natToDigitsAux fuel (n / 10) _ c hmem with h | h
      · rcases List.mem_cons.mp h with h' | h'
        · exact Or.inr ⟨n % 10, Nat.mod_lt _ (by omega), h'⟩
        · exact Or.inl h'
      · exact Or.inr h

theorem mem_natToDigits (n : Nat) (c : Char) (h : c ∈ natToDigits n) :
    ∃ m, m < 10 ∧ c = decDigitChar m := by
  rcases mem_natToDigitsAux (n + 1) n [] c h with h' | h'
  · simp at h'
  · exact h'

/-- A digit character's code point is between 48 and 57. -/
theorem natToDigits_code (n : Nat) (c : Char) (h : c ∈ natToDigits n) :
    48 ≤ c.toNat ∧ c.toNat ≤ 57 := by
  rcases mem_natToDigits n c h with ⟨m, hm, rfl⟩
  rw [decDigitChar_toNat m hm]
  omega

theorem natOfDigits_append_digit (xs : List Char) (c : Char) :
    natOfDigits (xs ++ [c]) = natOfDigits xs * 10 + (c.toNat - 48) := by
  simp [natOfDigits, List.foldl_append]

theorem natOfDigits_natToDigitsAux : ∀ (n fuel : Nat), n < fuel →
    natOfDigits (natToDigitsAux fuel n []) = n := by
  intro n
  induction n using Nat.strong_induction_on with
  | _ n ih =>
    intro fuel hfuel
    match fuel with
    | 0 => omega
    | fuel + 1 =>
      simp only [natToDigitsAux]
      split
      · next h =>
        simp [natOfDigits, decDigitChar_toNat n h]
      · next h =>
        rw [natToDigitsAux_acc, natOfDigits_append_digit,
          ih (n / 10) (by omega) fuel (by omega),
          decDigitChar_toNat (n % 10) (Nat.mod_lt _ (by omega))]
        omega

/-- Printing then reading a number is the identity. -/
theorem natOfDigits_natToDigits (n : Nat) :
    natOfDigits (natToDigits n) = n :=
  natOfDigits_natToDigitsAux n (n + 1) (Nat.lt_succ_self n)

theorem natToDigits_not_nil (n : Nat) : natToDigits n ≠ [] := by
  unfold natToDigits natToDigitsAux
  split
  · simp
  · rw [natToDigitsAux_acc]
    simp

/-! ## Hex encoding (`Buffer.prototype.toString('hex')` / `Buffer.from(s, 'hex')`) -/

/-- Lowercase hex digit for `m < 16`. -/
def hexDigitCharAux (m : Nat) : Char :=
  Char.ofNat (if m < 10 then 48 + m else 87 + m)

def hexDigitChar (n : Nat) : Char := hexDigitCharAux (n % 16)

/-- `buffer.toString('hex')`: two lowercase hex digits per byte. -/
def bytesToHex (l : List Nat) : List Char :=
  l.flatMap (fun b => [hexDigitChar (b / 16), hexDigitChar b])

/-- Value of one hex digit character, or `none` when the character is not
a hex digit. -/
def hexCharVal (c : Char) : Option Nat :=
  let n := c.toNat
  if 48 ≤ n ∧ n ≤ 57 then some (n - 48)
  else if 97 ≤ n ∧ n ≤ 102 then some (n - 87)
  else if 65 ≤ n ∧ n ≤ 70 then some (n - 55)
  else none

/-- `Buffer.from(s, 'hex')`: decodes pairs of hex digits, stopping (and
truncating) at the first invalid pair or odd leftover character. -/
def hexToBytes : List Char → List Nat
  | c1 :: c2 :: rest =>
    match hexCharVal c1, hexCharVal c2 with
    | some v1, some v2 => (v1 * 16 + v2) :: hexToBytes rest
    | _, _ => []
  | _ => []

theorem hexCharVal_hexDigitCharAux (m : Nat) (h : m < 16) :
    hexCharVal (hexDigitCharAux m) = some m := by
  interval_cases m <;> rfl

theorem hexCharVal_hexDigitChar (n : Nat) :
    hexCharVal (hexDigitChar n) = some (n % 16) :=
  hexCharVal_hexDigitCharAux (n % 16) (Nat.mod_lt _ (by omega))

/-- Hex-encoding bytes and decoding them again is the identity. -/
theorem hexToBytes_bytesToHex (l : List Nat) (h : ∀ b ∈ l, b < 256) :
    hexToBytes (bytesToHex l) = l := by
  induction l with
  | nil => rfl
  | cons b rest ih =>
    have hb : b < 256 := h b (List.mem_cons_self b rest)
    have hrest : ∀ x ∈ rest, x < 256 := fun x hx => h x (List.mem_cons_of_mem b hx)
    show hexToBytes ([hexDigitChar (b / 16), hexDigitChar b] ++ bytesToHex rest) = b :: rest
    simp only [List.cons_append, List.nil_append, hexToBytes, hexCharVal_hexDigitChar]
    rw [show List.append ([] : List Char) (bytesToHex rest) = bytesToHex rest from rfl, ih hrest]
    congr 1
    omega

theorem mem_bytesToHex (l : List Nat) (c : Char) (h : c ∈ bytesToHex l) :
    ∃ m, m < 16 ∧ c = hexDigitCharAux m := by
  simp only [bytesToHex, List.mem_flatMap] at h
  rcases h with ⟨b, _, hc⟩
  simp only [List.mem_cons, List.not_mem_nil, or_false] at hc
  rcases hc with rfl | rfl
  · exact ⟨b / 16 % 16, Nat.mod_lt _ (by omega), rfl⟩
  · exact ⟨b % 16, Nat.mod_lt _ (by omega), rfl⟩

theorem hexDigitCharAux_code (m : Nat) (h : m < 16) :
    (48 ≤ (hexDigitCharAux m).toNat ∧ (hexDigitCharAux m).toNat ≤ 57) ∨
    (97 ≤ (hexDigitCharAux m).toNat ∧ (hexDigitCharAux m).toNat ≤ 102) := by
  interval_cases m <;> simp [hexDigitCharAux]

/-- No character of a hex encoding is the `':'` delimiter. -/
theorem bytesToHex_ne_colon (l : List Nat) (c : Char) (h : c ∈ bytesToHex l) :
    c ≠ ':' := by
  rcases mem_bytesToHex l c h with ⟨m, hm, rfl⟩
  intro hc
  rcases hexDigitCharAux_code m hm with h' | h' <;>
    · rw [hc] at h'
      simp at h'

theorem bytesToHex_length (l : List Nat) :
    (bytesToHex l).length = 2 * l.length := by
  induction l with
  | nil => rfl
  | cons b rest ih =>
    simp only [bytesToHex, List.flatMap_cons] at ih ⊢
    simp [ih]
    omega

/-! ## Unpadded URL-safe base64 (`Buffer.prototype.toString('base64url')`) -/

/-- The base64url alphabet, by six-bit value: `A-Z`, `a-z`, `0-9`, `-`, `_`. -/
def b64cAux (m : Nat) : Char :=
  Char.ofNat
    (if m < 26 then 65 + m
     else if m < 52 then 71 + m
     else if m < 62 then m - 4
     else if m = 62 then 45
     else 95)

def b64c (n : Nat) : Char := b64cAux (n % 64)

/-- Six-bit value of a base64url character, `none` off the alphabet. -/
def b64v (c : Char) : Option Nat :=
  let n := c.toNat
  if 65 ≤ n ∧ n ≤ 90 then some (n - 65)
  else if 97 ≤ n ∧ n ≤ 122 then some (n - 71)
  else if 48 ≤ n ∧ n ≤ 57 then some (n + 4)
  else if n = 45 then some 62
  else if n = 95 then some 63
  else none

/-- Unpadded base64url encoding of a byte list, three bytes to four
characters, with two- and three-character tails. -/
def base64urlEncode : List Nat → List Char
  | [] => []
  | [b1] => [b64c (b1 / 4), b64c (b1 % 4 * 16)]
  | [b1, b2] => [b64c (b1 / 4), b64c (b1 % 4 * 16 + b2 / 16), b64c (b2 % 16 * 4)]
  | b1 :: b2 :: b3 :: rest =>
    b64c (b1 / 4) :: b64c (b1 % 4 * 16 + b2 / 16) :: b64c (b2 % 16 * 4 + b3 / 64) ::
      b64c (b3 % 64) :: base64urlEncode rest

/-- Unpadded base64url decoding; `none` on any off-alphabet character or
an impossible length. -/
def base64urlDecode : List Char → Option (List Nat)
  | [] => some []
  | [_] => none
  | [c1, c2] =>
    match b64v c1, b64v c2 with
    | some v1, some v2 => some [v1 * 4 + v2 / 16]
    | _, _ => none
  | [c1, c2, c3] =>
    match b64v c1, b64v c2, b64v c3 with
    | some v1, some v2, some v3 => some [v1 * 4 + v2 / 16, v2 % 16 * 16 + v3 / 4]
    | _, _, _ => none
  | c1 :: c2 :: c3 :: c4 :: rest =>
    match b64v c1, b64v c2, b64v c3, b64v c4, base64urlDecode rest with
    | some v1, some v2, some v3, some v4, some tail =>
      some ((v1 * 4 + v2 / 16) :: (v2 % 16 * 16 + v3 / 4) :: (v3 % 4 * 64 + v4) :: tail)
    | _, _, _, _, _ => none

theorem b64v_b64cAux (m : Nat) (h : m < 64) : b64v (b64cAux m) = some m := by
  interval_cases m <;> rfl

theorem b64v_b64c (n : Nat) : b64v (b64c n) = some (n % 64) :=
  b64v_b64cAux (n % 64) (Nat.mod_lt _ (by omega))

theorem b64cAux_ne_dot (m : Nat) (h : m < 64) : b64cAux m ≠ '.' := by
  interval_cases m <;> decide

theorem b64c_ne_dot (n : Nat) : b64c n ≠ '.' :=
  b64cAux_ne_dot (n % 64) (Nat.mod_lt _ (by omega))

/-- Base64url-encoding bytes and decoding again is the identity. -/
theorem base64urlDecode_encode :
    ∀ l : List Nat, (∀ b ∈ l, b < 256) →
      base64urlDecode (base64urlEncode l) = some l
  | [], _ => rfl
  | [b1], h => by
    have h1 : b1 < 256 := h b1 (by simp)
    simp only [base64urlEncode, base64urlDecode, b64v_b64c]
    congr 2
    omega
  | [b1, b2], h => by
    have h1 : b1 < 256 := h b1 (by simp)
    have h2 : b2 < 256 := h b2 (by simp)
    simp only [base64urlEncode, base64urlDecode, b64v_b64c]
    congr 1
    have e1 : b1 / 4 % 64 = b1 / 4 := by omega
    have e2 : (b1 % 4 * 16 + b2 / 16) % 64 = b1 % 4 * 16 + b2 / 16 := by omega
    have e3 : b2 % 16 * 4 % 64 = b2 % 16 * 4 := by omega
    rw [e1, e2, e3]
    congr 1
    · omega
    · congr 1
      omega
  | b1 :: b2 :: b3 :: rest, h => by
    have h1 : b1 < 256 := h b1 (by simp)
    have h2 : b2 < 256 := h b2 (by simp)
    have h3 : b3 < 256 := h b3 (by simp)
    have hrest : ∀ b ∈ rest, b < 256 := fun b hb => h b (by simp [hb])
    have ih := base64urlDecode_encode rest hrest
    simp only [base64urlEncode]
    rcases rest with _ | ⟨b4, rest'⟩
    · simp only [base64urlEncode, base64urlDecode, b64v_b64c]
      have e1 : b1 / 4 % 64 = b1 / 4 := by omega
      have e2 : (b1 % 4 * 16 + b2 / 16) % 64 = b1 % 4 * 16 + b2 / 16 := by omega
      have e3 : (b2 % 16 * 4 + b3 / 64) % 64 = b2 % 16 * 4 + b3 / 64 := by omega
      have e4 : b3 % 64 % 64 = b3 % 64 := by omega
      rw [e1, e2, e3, e4]
      congr 1
      congr 1
      · omega
      · congr 1
        · omega
        · congr 1
          omega
    · -- at least four bytes: the tail call appears verbatim
      have hne : base64urlEncode (b4 :: rest') ≠ [] := by
        rcases rest' with _ | ⟨b5, rest''⟩
        · simp [base64urlEncode]
        · rcases rest'' with _ | ⟨b6, rest'''⟩
          · simp [base64urlEncode]
          · simp [base64urlEncode]
      rcases he : base64urlEncode (b4 :: rest') with _ | ⟨c1, tail1⟩
      · exact absurd he hne
      · rw [he] at ih
        simp only [base64urlDecode, b64v_b64c, ih]
        have e1 : b1 / 4 % 64 = b1 / 4 := by omega
        have e2 : (b1 % 4 * 16 + b2 / 16) % 64 = b1 % 4 * 16 + b2 / 16 := by omega
        have e3 : (b2 % 16 * 4 + b3 / 64) % 64 = b2 % 16 * 4 + b3 / 64 := by omega
        have e4 : b3 % 64 % 64 = b3 % 64 := by omega
        rw [e1, e2, e3, e4]
        congr 1
        congr 1
        · omega
        · congr 1
          · omega
          · congr 1
            omega

/-- Every character a base64url encoding produces is on the alphabet,
hence never the `'.'` separator of a token. -/
theorem base64urlEncode_ne_dot :
    ∀ (l : List Nat) (c : Char), c ∈ base64urlEncode l → c ≠ '.'
  | [], c => by simp [base64urlEncode]
  | [b1], c => by
    intro hmem
    simp only [base64urlEncode, List.mem_cons, List.not_mem_nil, or_false] at hmem
    rcases hmem with rfl | rfl <;> exact b64c_ne_dot _
  | [b1, b2], c => by
    intro hmem
    simp only [base64urlEncode, List.mem_cons, List.not_mem_nil, or_false] at hmem
    rcases hmem with rfl | rfl | rfl <;> exact b64c_ne_dot _
  | b1 :: b2 :: b3 :: rest, c => by
    intro hmem
    simp only [base64urlEncode, List.mem_cons] at hmem
    rcases hmem with rfl | rfl | rfl | rfl | htail
    · exact b64c_ne_dot _
    · exact b64c_ne_dot _
    · exact b64c_ne_dot _
    · exact b64c_ne_dot _
    · exact base64urlEncode_ne_dot rest c htail

/-! ## Flat JSON objects (the shape `JSON.stringify` gives the token
header and payload: string and non-negative integer values, insertion
order preserved) -/

inductive JVal where
  | str : List Char → JVal
  | num : Nat → JVal
deriving DecidableEq

/-- A JSON string literal; claim keys and values carry no quote or
backslash, so no escaping arises. -/
def jstr (s : List Char) : List Char := '"' :: s ++ ['"']

def jvalEncode : JVal → List Char
  | .str s => jstr s
  | .num n => natToDigits n

/-- Comma-joined `"key":value` entries, insertion order. -/
def jentries : List (List Char × JVal) → List Char
  | [] => []
  | [(k, v)] => jstr k ++ ':' :: jvalEncode v
  | (k, v) :: rest => jstr k ++ ':' :: jvalEncode v ++ ',' :: jentries rest

def jobj (l : List (List Char × JVal)) : List Char :=
  '{' :: jentries l ++ ['}']

/-- Splitting the two server-generated fields off the end:
`jentries (claims ++ [a, b])` is some prefix followed by
`"ka":va,"kb":vb`. -/
theorem jentries_append_two (claims : List (List Char × JVal))
    (a b : List Char × JVal) :
    ∃ pre, jentries (claims ++ [a, b]) =
      pre ++ jstr a.1 ++ ':' :: jvalEncode a.2 ++ ',' :: jstr b.1 ++
        ':' :: jvalEncode b.2 := by
  induction claims with
  | nil =>
    refine ⟨[], ?_⟩
    simp only [List.nil_append, jentries]
    simp [List.append_assoc]
  | cons kv rest ih =>
    rcases ih with ⟨pre, hpre⟩
    refine ⟨jstr kv.1 ++ ':' :: jvalEncode kv.2 ++ [','] ++ pre, ?_⟩
    have hne : rest ++ [a, b] ≠ [] := by simp
    rcases hkv : rest ++ [a, b] with _ | ⟨x, xs⟩
    · exact absurd hkv hne
    · calc jentries (kv :: rest ++ [a, b])
          = jstr kv.1 ++ ':' :: jvalEncode kv.2 ++ ',' :: jentries (rest ++ [a, b]) := by
            rcases kv with ⟨k, v⟩
            rw [show (k, v) :: rest ++ [a, b] = (k, v) :: (rest ++ [a, b]) from rfl, hkv]
            simp only [jentries]
        _ = _ := by rw [hpre]; simp [List.append_assoc]

/-! ## Extracting `iat` and `exp` from an encoded payload -/

/-- Longest prefix of decimal digit characters, with the remainder. -/
def spanDigits : List Char → List Char × List Char
  | [] => ([], [])
  | c :: rest =>
    if 48 ≤ c.toNat ∧ c.toNat ≤ 57 then
      ((spanDigits rest).1.cons c, (spanDigits rest).2)
    else ([], c :: rest)

/-- Reads `…"iat":T,"exp":E}` off the end of a reversed character list. -/
def decodeIatExpRev (r : List Char) : Option (Nat × Nat) :=
  match r with
  | '}' :: r1 =>
    match spanDigits r1 with
    | ([], _) => none
    | (ed, r2) =>
      match r2 with
      | ':' :: '"' :: 'p' :: 'x' :: 'e' :: '"' :: ',' :: r3 =>
        match spanDigits r3 with
        | ([], _) => none
        | (td, r4) =>
          match r4 with
          | ':' :: '"' :: 't' :: 'a' :: 'i' :: '"' :: _ =>
            some (natOfDigits td.reverse, natOfDigits ed.reverse)
          | _ => none
      | _ => none
  | _ => none

/-- The `iat` and `exp` integers carried by a JSON-encoded payload
(`none` when the payload does not end with the two fields). -/
def decodeIatExpChars (l : List Char) : Option (Nat × Nat) :=
  decodeIatExpRev l.reverse

theorem spanDigits_append (d r : List Char)
    (hd : ∀ c ∈ d, 48 ≤ c.toNat ∧ c.toNat ≤ 57) :
    spanDigits (d ++ ':' :: r) = (d, ':' :: r) := by
  induction d with
  | nil =>
    simp [spanDigits]
  | cons c cs ih =>
    have hc := hd c (List.mem_cons_self c cs)
    have hcs : ∀ x ∈ cs, 48 ≤ x.toNat ∧ x.toNat ≤ 57 :=
      fun x hx => hd x (List.mem_cons_of_mem c hx)
    simp only [List.cons_append, spanDigits, if_pos hc]
    rw [show cs.append (':' :: r) = cs ++ ':' :: r from rfl, ih hcs]

/-- The payload object the token issue operations build: the caller's
claims followed by the two server-generated fields `iat` and `exp`. -/
def payloadChars (claims : List (List Char × JVal)) (iat expAt : Nat) : List Char :=
  jobj (claims ++ [(['i', 'a', 't'], JVal.num iat), (['e', 'x', 'p'], JVal.num expAt)])

/-- Reading `iat` and `exp` back out of an encoded payload recovers the
two integers the issue operation put in, whatever the claims are. -/
theorem decodeIatExpChars_payload (claims : List (List Char × JVal))
    (t e : Nat) : decodeIatExpChars (payloadChars claims t e) = some (t, e) := by
  rcases jentries_append_two claims (['i', 'a', 't'], JVal.num t)
    (['e', 'x', 'p'], JVal.num e) with ⟨pre, hpre⟩
  have hrev : (payloadChars claims t e).reverse =
      '}' :: ((natToDigits e).reverse ++ ':' :: '"' :: 'p' :: 'x' :: 'e' :: '"' ::
        ',' :: ((natToDigits t).reverse ++ ':' :: '"' :: 't' :: 'a' :: 'i' :: '"' ::
          (pre.reverse ++ ['{']))) := by
    unfold payloadChars jobj
    rw [hpre]
    simp only [jstr, jvalEncode, List.reverse_cons, List.reverse_append,
      List.reverse_cons, List.reverse_nil]
    simp [List.append_assoc]
  unfold decodeIatExpChars
  rw [hrev]
  have hdigE : ∀ c ∈ (natToDigits e).reverse, 48 ≤ c.toNat ∧ c.toNat ≤ 57 :=
    fun c hc => natToDigits_code e c (List.mem_reverse.mp hc)
  have hdigT : ∀ c ∈ (natToDigits t).reverse, 48 ≤ c.toNat ∧ c.toNat ≤ 57 :=
    fun c hc => natToDigits_code t c (List.mem_reverse.mp hc)
  have hEne : (natToDigits e).reverse ≠ [] := by
    simp [natToDigits_not_nil e]
  have hTne : (natToDigits t).reverse ≠ [] := by
    simp [natToDigits_not_nil t]
  rcases hE : (natToDigits e).reverse with _ | ⟨ce, cse⟩
  · exact absurd hE hEne
  rcases hT : (natToDigits t).reverse with _ | ⟨ct, cst⟩
  · exact absurd hT hTne
  rw [← hE, ← hT]
  have hspanE := spanDigits_append (natToDigits e).reverse
    ('"' :: 'p' :: 'x' :: 'e' :: '"' :: ',' :: ((natToDigits t).reverse ++
      ':' :: '"' :: 't' :: 'a' :: 'i' :: '"' :: (pre.reverse ++ ['{']))) hdigE
  have hspanT := spanDigits_append (natToDigits t).reverse
    ('"' :: 't' :: 'a' :: 'i' :: '"' :: (pre.reverse ++ ['{'])) hdigT
  simp only [decodeIatExpRev]
  rw [show (natToDigits e).reverse ++ ':' :: '"' :: 'p' :: 'x' :: 'e' :: '"' ::
      ',' :: ((natToDigits t).reverse ++ ':' :: '"' :: 't' :: 'a' :: 'i' :: '"' ::
        (pre.reverse ++ ['{'])) =
      (natToDigits e).reverse ++ ':' :: ('"' :: 'p' :: 'x' :: 'e' :: '"' :: ',' ::
        ((natToDigits t).reverse ++ ':' :: '"' :: 't' :: 'a' :: 'i' :: '"' ::
          (pre.reverse ++ ['{']))) from rfl, hspanE]
  rw [hE]
  simp only
  rw [← hE]
  rw [show (natToDigits t).reverse ++ ':' :: '"' :: 't' :: 'a' :: 'i' :: '"' ::
      (pre.reverse ++ ['{']) =
      (natToDigits t).reverse ++ ':' :: ('"' :: 't' :: 'a' :: 'i' :: '"' ::
        (pre.reverse ++ ['{'])) from rfl, hspanT]
  rw [hT]
  simp only
  rw [← hT]
  simp [natOfDigits_natToDigits]

/-! ## Token issuance

`createToken` (login_user.ts, lines 85-101) and `createJWT`
(register_user.ts, lines 8-31) build `header.payload.signature` strings.
SHA-256 is an external primitive (`node:crypto`), so it enters as the
function parameter `H` from bytes to bytes. -/

/-- Treats a JS string as the byte list `Buffer.from` produces for it;
all strings involved are single-byte characters, so the code points are
the bytes. -/
def strBytes (l : List Char) : List Nat := l.map Char.toNat

def bytesChars (l : List Nat) : List Char := l.map Char.ofNat

/-- The header object both token builders construct:
`{ alg: 'HS256', typ: 'JWT' }`. -/
def tokenHeader : List (List Char × JVal) :=
  [(['a', 'l', 'g'], JVal.str ['H', 'S', '2', '5', '6']),
   (['t', 'y', 'p'], JVal.str ['J', 'W', 'T'])]

/-- The signature both builders compute:
`createHash('sha256').update(encodedHeader + "." + encodedPayload + "." + secret).digest('base64url')`. -/
def tokenSignature (H : List Nat → List Nat) (eh ep secret : List Char) : List Char :=
  base64urlEncode (H (strBytes (eh ++ '.' :: ep ++ '.' :: secret)))

/-- `createToken(payload)` of login_user.ts: claims plus `iat = now` and
`exp = now + 24 * 60 * 60`, each part base64url-encoded and dot-joined. -/
def createToken (H : List Nat → List Nat) (secret : List Char)
    (claims : List (List Char × JVal)) (now : Nat) : List Char :=
  base64urlEncode (strBytes (jobj tokenHeader)) ++ '.' ::
    base64urlEncode (strBytes (payloadChars claims now (now + 24 * 60 * 60))) ++ '.' ::
      tokenSignature H (base64urlEncode (strBytes (jobj tokenHeader)))
        (base64urlEncode (strBytes (payloadChars claims now (now + 24 * 60 * 60)))) secret

/-- `createJWT(payload, secret, expiresIn)` of register_user.ts: same
construction, but `exp = now + 7 * 24 * 60 * 60` is hard-coded to seven
days (the `expiresIn` argument is never read). -/
def createJWT (H : List Nat → List Nat) (secret : List Char)
    (claims : List (List Char × JVal)) (now : Nat) : List Char :=
  base64urlEncode (strBytes (jobj tokenHeader)) ++ '.' ::
    base64urlEncode (strBytes (payloadChars claims now (now + 7 * 24 * 60 * 60))) ++ '.' ::
      tokenSignature H (base64urlEncode (strBytes (jobj tokenHeader)))
        (base64urlEncode (strBytes (payloadChars claims now (now + 7 * 24 * 60 * 60)))) secret

/-- Splits a token on `'.'`, base64url-decodes the payload part and reads
the `iat` and `exp` integers out of it (the test helper `decodeToken` of
the login test suite does exactly this). -/
def decodeTokenIatExp (token : List Char) : Option (Nat × Nat) :=
  match splitOnChar '.' token with
  | [_, p, _] =>
    match base64urlDecode p with
    | some bytes => decodeIatExpChars (bytesChars bytes)
    | none => none
  | _ => none

/-- A claim value made only of single-byte characters. -/
def wfValB : JVal → Bool
  | .str s => s.all (fun c => c.toNat < 256)
  | .num _ => true

/-- A claims map made only of single-byte characters (true of every
claims object the handlers build: user ids, usernames, emails). -/
def wfClaimsB (claims : List (List Char × JVal)) : Bool :=
  claims.all (fun kv => kv.1.all (fun c => c.toNat < 256) && wfValB kv.2)

theorem mem_jentries : ∀ (l : List (List Char × JVal)) (c : Char),
    c ∈ jentries l →
      c = ',' ∨ c = ':' ∨ ∃ kv, kv ∈ l ∧ (c ∈ jstr kv.1 ∨ c ∈ jvalEncode kv.2)
  | [], c => fun h => absurd h (List.not_mem_nil c)
  | [(k, v)], c => by
    intro h
    have hunf : jentries [(k, v)] = jstr k ++ ':' :: jvalEncode v := rfl
    rw [hunf] at h
    rcases List.mem_append.mp h with h | h
    · exact Or.inr (Or.inr ⟨(k, v), List.mem_singleton_self _, Or.inl h⟩)
    · rcases List.mem_cons.mp h with rfl | h
      · exact Or.inr (Or.inl rfl)
      · exact Or.inr (Or.inr ⟨(k, v), List.mem_singleton_self _, Or.inr h⟩)
  | (k, v) :: kv2 :: rest, c => by
    intro h
    have hunf : jentries ((k, v) :: kv2 :: rest) =
        (jstr k ++ ':' :: jvalEncode v) ++ ',' :: jentries (kv2 :: rest) := rfl
    rw [hunf] at h
    rcases List.mem_append.mp h with h | h
    · rcases List.mem_append.mp h with h | h
      · exact Or.inr (Or.inr ⟨(k, v), List.mem_cons_self _ _, Or.inl h⟩)
      · rcases List.mem_cons.mp h with rfl | h
        · exact Or.inr (Or.inl rfl)
        · exact Or.inr (Or.inr ⟨(k, v), List.mem_cons_self _ _, Or.inr h⟩)
    · rcases List.mem_cons.mp h with rfl | h
      · exact Or.inl rfl
      · rcases mem_jentries (kv2 :: rest) c h with h' | h' | ⟨kv, hkv, hc⟩
        · exact Or.inl h'
        · exact Or.inr (Or.inl h')
        · exact Or.inr (Or.inr ⟨kv, List.mem_cons_of_mem _ hkv, hc⟩)

theorem mem_jstr (s : List Char) (c : Char) (h : c ∈ jstr s) :
    c = '"' ∨ c ∈ s := by
  simp only [jstr, List.mem_cons, List.mem_append] at h
  tauto

/-- Under the single-byte hypothesis every character of the encoded
payload is a single byte. -/
theorem payloadChars_bytes (claims : List (List Char × JVal))
    (hwf : wfClaimsB claims = true) (t e : Nat) :
    ∀ c ∈ payloadChars claims t e, c.toNat < 256 := by
  intro c hc
  unfold payloadChars jobj at hc
  rcases List.mem_cons.mp hc with rfl | hc'
  · decide
  rcases List.mem_append.mp hc' with hj | hbrace
  · rcases mem_jentries _ c hj with rfl | rfl | ⟨kv, hkv, hins⟩
    · decide
    · decide
    · have hkv256 : (∀ x ∈ kv.1, x.toNat < 256) ∧ wfValB kv.2 = true := by
        rcases List.mem_append.mp hkv with hcl | htwo
        · have hall := List.all_eq_true.mp hwf kv hcl
          rw [Bool.and_eq_true] at hall
          refine ⟨?_, hall.2⟩
          intro x hx
          exact of_decide_eq_true (List.all_eq_true.mp hall.1 x hx)
        · simp only [List.mem_cons, List.not_mem_nil, or_false] at htwo
          rcases htwo with rfl | rfl
          · constructor
            · intro x hx
              simp only [List.mem_cons, List.not_mem_nil, or_false] at hx
              rcases hx with rfl | rfl | rfl <;> decide
            · rfl
          · constructor
            · intro x hx
              simp only [List.mem_cons, List.not_mem_nil, or_false] at hx
              rcases hx with rfl | rfl | rfl <;> decide
            · rfl
      rcases hins with hk | hv
      · rcases mem_jstr _ _ hk with rfl | hmem
        · decide
        · exact hkv256.1 c hmem
      · rcases hv2 : kv.2 with s | n
        · rw [hv2] at hv
          simp only [jvalEncode] at hv
          rcases mem_jstr _ _ hv with rfl | hmem
          · decide
          · have := hkv256.2
            rw [hv2] at this
            simp only [wfValB, List.all_eq_true] at this
            simpa using this c hmem
        · rw [hv2] at hv
          simp only [jvalEncode] at hv
          have := natToDigits_code n c hv
          omega
  · simp only [List.mem_cons, List.not_mem_nil, or_false] at hbrace
    rw [hbrace]
    decide

theorem bytesChars_strBytes (l : List Char) : bytesChars (strBytes l) = l := by
  unfold bytesChars strBytes
  rw [List.map_map]
  have : (Char.ofNat ∘ Char.toNat) = id := by
    funext c
    exact Char.ofNat_toNat c
  rw [this, List.map_id]

/-- `splitOnChar '.'` recovers exactly the three parts of an issued
token, because base64url parts never contain `'.'`. -/
theorem splitOnChar_token (eh ep sig : List Char)
    (heh : ∀ c ∈ eh, c ≠ '.') (hep : ∀ c ∈ ep, c ≠ '.')
    (hsig : ∀ c ∈ sig, c ≠ '.') :
    splitOnChar '.' (eh ++ '.' :: ep ++ '.' :: sig) = [eh, ep, sig] := by
  have := splitOnChar_three '.' eh ep sig heh hep hsig
  simpa using this

/-- Decoding the payload of a `createToken` token recovers `iat = now`
and `exp = now + 86400`. -/
theorem decodeTokenIatExp_createToken (H : List Nat → List Nat)
    (secret : List Char) (claims : List (List Char × JVal)) (now : Nat)
    (hwf : wfClaimsB claims = true) :
    decodeTokenIatExp (createToken H secret claims now) =
      some (now, now + 86400) := by
  unfold createToken decodeTokenIatExp
  rw [splitOnChar_token (base64urlEncode (strBytes (jobj tokenHeader)))
    (base64urlEncode (strBytes (payloadChars claims now (now + 24 * 60 * 60))))
    (tokenSignature H (base64urlEncode (strBytes (jobj tokenHeader)))
      (base64urlEncode (strBytes (payloadChars claims now (now + 24 * 60 * 60)))) secret)
    (base64urlEncode_ne_dot _) (base64urlEncode_ne_dot _)
    (fun c hc => base64urlEncode_ne_dot _ c hc)]
  have hbytes : ∀ b ∈ strBytes (payloadChars claims now (now + 24 * 60 * 60)), b < 256 := by
    intro b hb
    unfold strBytes at hb
    rcases List.mem_map.mp hb with ⟨c, hc, rfl⟩
    exact payloadChars_bytes claims hwf now (now + 24 * 60 * 60) c hc
  show (match base64urlDecode (base64urlEncode (strBytes
      (payloadChars claims now (now + 24 * 60 * 60)))) with
    | some bytes => decodeIatExpChars (bytesChars bytes)
    | none => none) = some (now, now + 86400)
  rw [base64urlDecode_encode _ hbytes]
  show decodeIatExpChars (bytesChars (strBytes
    (payloadChars claims now (now + 24 * 60 * 60)))) = some (now, now + 86400)
  rw [bytesChars_strBytes, decodeIatExpChars_payload claims now (now + 24 * 60 * 60)]

/-- Decoding the payload of a `createJWT` token recovers `iat = now` and
`exp = now + 604800` (seven days). -/
theorem decodeTokenIatExp_createJWT (H : List Nat → List Nat)
    (secret : List Char) (claims : List (List Char × JVal)) (now : Nat)
    (hwf : wfClaimsB claims = true) :
    decodeTokenIatExp (createJWT H secret claims now) =
      some (now, now + 604800) := by
  unfold createJWT decodeTokenIatExp
  rw [splitOnChar_token (base64urlEncode (strBytes (jobj tokenHeader)))
    (base64urlEncode (strBytes (payloadChars claims now (now + 7 * 24 * 60 * 60))))
    (tokenSignature H (base64urlEncode (strBytes (jobj tokenHeader)))
      (base64urlEncode (strBytes (payloadChars claims now (now + 7 * 24 * 60 * 60)))) secret)
    (base64urlEncode_ne_dot _) (base64urlEncode_ne_dot _)
    (fun c hc => base64urlEncode_ne_dot _ c hc)]
  have hbytes : ∀ b ∈ strBytes (payloadChars claims now (now + 7 * 24 * 60 * 60)), b < 256 := by
    intro b hb
    unfold strBytes at hb
    rcases List.mem_map.mp hb with ⟨c, hc, rfl⟩
    exact payloadChars_bytes claims hwf now (now + 7 * 24 * 60 * 60) c hc
  show (match base64urlDecode (base64urlEncode (strBytes
      (payloadChars claims now (now + 7 * 24 * 60 * 60)))) with
    | some bytes => decodeIatExpChars (bytesChars bytes)
    | none => none) = some (now, now + 604800)
  rw [base64urlDecode_encode _ hbytes]
  show decodeIatExpChars (bytesChars (strBytes
    (payloadChars claims now (now + 7 * 24 * 60 * 60)))) = some (now, now + 604800)
  rw [bytesChars_strBytes, decodeIatExpChars_payload claims now (now + 7 * 24 * 60 * 60)]

/-! ## Password hashing and verification

`pbkdf2Sync(password, salt, iterations, keylen, 'sha512')` is an external
primitive; it enters the model as a parameter
`kdf : List Char → List Nat → Nat → Nat → List Nat`
taking the password characters, the salt **bytes** actually handed to the
primitive (register_user.ts passes the hex string itself, so its bytes
are the character codes of the hex text; login_user.ts passes
`Buffer.from(salt, 'hex')`, the decoded raw bytes), the iteration count
and the key length. -/

/-- The KDF signature: password, salt bytes, iterations, key length. -/
def KDF : Type := List Char → List Nat → Nat → Nat → List Nat

/-- `hashPassword` of register_user.ts (lines 34-38): 32 fresh random
salt bytes, hex-encoded; the derived key is
`pbkdf2Sync(password, saltHexString, 10000, 64, 'sha512')` — note the
salt handed to the KDF is the hex *text* — and the digest is
`salt + ":" + hash`, both hex. -/
def registerHashPassword (kdf : KDF) (password : List Char)
    (saltBytes : List Nat) : List Char :=
  bytesToHex saltBytes ++ ':' ::
    bytesToHex (kdf password (strBytes (bytesToHex saltBytes)) 10000 64)

/-- JS `===` on strings, instrumented: length check first, then a
left-to-right character scan that stops at the first mismatch.  The
second component counts the character comparisons performed. -/
def strictEqScan : List Char → List Char → Bool × Nat
  | [], [] => (true, 0)
  | [], _ :: _ => (false, 0)
  | _ :: _, [] => (false, 0)
  | a :: as, b :: bs =>
    if a = b then ((strictEqScan as bs).1, (strictEqScan as bs).2 + 1)
    else (false, 1)

def strictEq (a b : List Char) : Bool × Nat :=
  if a.length = b.length then strictEqScan a b else (false, 0)

/-- `crypto.timingSafeEqual`, instrumented: touches every byte pair with
no early exit; the second component counts the byte operations. -/
def ctEqScan : List Nat → List Nat → Bool × Nat
  | [], [] => (true, 0)
  | [], _ :: _ => (false, 0)
  | _ :: _, [] => (false, 0)
  | a :: as, b :: bs => ((a == b) && (ctEqScan as bs).1, (ctEqScan as bs).2 + 1)

/-- `verifyPassword` of register_user.ts (lines 40-44):
`const [salt, hash] = hashedPassword.split(':')`, recompute with the same
parameters register's `hashPassword` uses, then compare the hex strings
with `===`.  When the digest has no `':'`, `hash` is `undefined` and
`undefined === string` is `false`.  Extra `':'`-fields are ignored.
First component is the returned boolean, second the comparison's
character-step count. -/
def registerVerifyCore (kdf : KDF) (password stored : List Char) : Bool × Nat :=
  match splitOnChar ':' stored with
  | [] => (false, 0)
  | salt :: rest =>
    match rest.head? with
    | none => (false, 0)
    | some hashF =>
      strictEq hashF (bytesToHex (kdf password (strBytes salt) 10000 64))

def registerVerifyPassword (kdf : KDF) (password stored : List Char) : Bool :=
  (registerVerifyCore kdf password stored).1

def registerVerifyPasswordSteps (kdf : KDF) (password stored : List Char) : Nat :=
  (registerVerifyCore kdf password stored).2

/-- `hashPassword` of login_user.ts (lines 104-112) with an explicit
salt: `pbkdf2Sync(password, Buffer.from(salt, 'hex'), 100000, 64,
'sha512')`; returns the derived key hex and the salt hex. -/
def loginHashPassword (kdf : KDF) (password saltHex : List Char) :
    List Char × List Char :=
  (bytesToHex (kdf password (hexToBytes saltHex) 100000 64),
    bytesToHex (hexToBytes saltHex))

/-- `hashPassword` of login_user.ts with the salt omitted: 32 fresh
random bytes are drawn instead (passed here as `saltBytes`). -/
def loginHashPasswordFresh (kdf : KDF) (password : List Char)
    (saltBytes : List Nat) : List Char × List Char :=
  (bytesToHex (kdf password saltBytes 100000 64), bytesToHex saltBytes)

/-- `verifyPassword` of login_user.ts (lines 115-134):
`const [salt, hash] = storedHash.split(':')`; `if (!salt || !hash) return
false`; recompute via login's `hashPassword(password, salt)`; hex-decode
both keys; require equal buffer lengths (`&&` short-circuits before
`timingSafeEqual` otherwise), then compare with `timingSafeEqual`.  The
surrounding `try/catch` returns `false` on any failure; the model is
total, so no failure arises.  First component is the returned boolean,
second the byte-comparison step count. -/
def loginVerifyCore (kdf : KDF) (password stored : List Char) : Bool × Nat :=
  match splitOnChar ':' stored with
  | [] => (false, 0)
  | salt :: rest =>
    match rest.head? with
    | none => (false, 0)
    | some hashF =>
      if salt.isEmpty || hashF.isEmpty then (false, 0)
      else
        let storedBuffer := hexToBytes hashF
        let computedBuffer := hexToBytes (loginHashPassword kdf password salt).1
        if storedBuffer.length = computedBuffer.length then
          ctEqScan storedBuffer computedBuffer
        else (false, 0)

def loginVerifyPassword (kdf : KDF) (password stored : List Char) : Bool :=
  (loginVerifyCore kdf password stored).1

def loginVerifyPasswordSteps (kdf : KDF) (password stored : List Char) : Nat :=
  (loginVerifyCore kdf password stored).2

/-! ### Comparison lemmas -/

theorem strictEqScan_self : ∀ a : List Char, strictEqScan a a = (true, a.length)
  | [] => rfl
  | c :: cs => by
    simp only [strictEqScan, if_pos rfl, strictEqScan_self cs, List.length_cons]
    simp

theorem strictEq_self (a : List Char) : (strictEq a a).1 = true := by
  unfold strictEq
  rw [if_pos rfl, strictEqScan_self]

theorem ctEqScan_eq_true_iff : ∀ a b : List Nat, (ctEqScan a b).1 = true ↔ a = b
  | [], [] => by simp [ctEqScan]
  | [], _ :: _ => by simp [ctEqScan]
  | _ :: _, [] => by simp [ctEqScan]
  | a :: as, b :: bs => by
    simp only [ctEqScan, Bool.and_eq_true, beq_iff_eq, ctEqScan_eq_true_iff as bs,
      List.cons.injEq]

/-- The byte-comparison count of `timingSafeEqual` on equal-length
buffers is the buffer length — independent of the contents. -/
theorem ctEqScan_steps : ∀ a b : List Nat, a.length = b.length →
    (ctEqScan a b).2 = a.length
  | [], [], _ => rfl
  | [], _ :: _, h => by simp at h
  | _ :: _, [], h => by simp at h
  | a :: as, b :: bs, h => by
    simp only [ctEqScan, List.length_cons]
    rw [ctEqScan_steps as bs (by simpa using h)]

/-! ## Relational state and the message handlers

Rows mirror `db/schema.ts`; timestamps are `Nat`, nullable columns are
`Option`.  Handlers are modelled as functions from the database (and the
fresh values the runtime supplies: new serial id, current time) to the
resulting database plus an `Except` outcome — `.error` is a thrown
`Error`, and the database component at an error is the state at the time
of the throw. -/

inductive MessageType where
  | text
  | file
  | image
  | document
deriving DecidableEq

structure UserRow where
  id : Nat
  username : List Char
  email : List Char
  password_hash : List Char
  created_at : Nat
  updated_at : Nat
deriving DecidableEq

structure ChatRoomRow where
  id : Nat
  name : List Char
  description : Option (List Char)
  invitation_code : List Char
  created_by : Nat
  created_at : Nat
  updated_at : Nat
deriving DecidableEq

structure RoomMemberRow where
  id : Nat
  room_id : Nat
  user_id : Nat
  joined_at : Nat
deriving DecidableEq

structure MessageRow where
  id : Nat
  room_id : Nat
  user_id : Nat
  content : Option (List Char)
  message_type : MessageType
  file_url : Option (List Char)
  file_name : Option (List Char)
  file_size : Option Nat
  file_type : Option (List Char)
  is_deleted : Bool
  deleted_at : Option Nat
  created_at : Nat
  updated_at : Nat
deriving DecidableEq

structure Database where
  users : List UserRow
  rooms : List ChatRoomRow
  roomMembers : List RoomMemberRow
  messages : List MessageRow
deriving DecidableEq

/-- A message row joined with the sender's username, the handlers'
response shape. -/
structure MessageWithUser where
  id : Nat
  room_id : Nat
  user_id : Nat
  content : Option (List Char)
  message_type : MessageType
  file_url : Option (List Char)
  file_name : Option (List Char)
  file_size : Option Nat
  file_type : Option (List Char)
  is_deleted : Bool
  deleted_at : Option Nat
  created_at : Nat
  updated_at : Nat
  username : List Char
deriving DecidableEq

structure SendMessageInput where
  room_id : Nat
  content : Option (List Char)
  message_type : MessageType
  file_url : Option (List Char)
  file_name : Option (List Char)
  file_size : Option Nat
  file_type : Option (List Char)
deriving DecidableEq

structure GetMessagesInput where
  room_id : Nat
  limit : Nat
  offset : Nat
deriving DecidableEq

structure DeleteMessageInput where
  message_id : Nat
deriving DecidableEq

/-- JS falsiness of a nullable string: `null`/`undefined` and `""` are
falsy. -/
def strFalsy : Option (List Char) → Bool
  | none => true
  | some s => s.isEmpty

/-- `x || null` on a nullable string: empty strings collapse to `null`. -/
def orNullStr (v : Option (List Char)) : Option (List Char) :=
  if strFalsy v then none else v

/-- `x || null` on a nullable number: `0` collapses to `null`. -/
def orNullNat : Option Nat → Option Nat
  | none => none
  | some n => if n = 0 then none else some n

/-- The `innerJoin(usersTable, eq(messages.user_id, users.id))` row
shape. -/
def joinUser (db : Database) (m : MessageRow) : Option MessageWithUser :=
  match db.users.find? (fun u => u.id == m.user_id) with
  | none => none
  | some u => some
    { id := m.id, room_id := m.room_id, user_id := m.user_id,
      content := m.content, message_type := m.message_type,
      file_url := m.file_url, file_name := m.file_name,
      file_size := m.file_size, file_type := m.file_type,
      is_deleted := m.is_deleted, deleted_at := m.deleted_at,
      created_at := m.created_at, updated_at := m.updated_at,
      username := u.username }

/-- `sendMessage` of send_message.ts (lines 6-78).  `newId` is the serial
id the insert returns, `now` the insert timestamp.  Steps: membership
check, content validation, insert, join.  The join row is `Option`
because `messageWithUser[0]` is `undefined` when the join is empty. -/
def sendMessage (db : Database) (input : SendMessageInput) (userId : Nat)
    (newId now : Nat) : Database × Except (List Char) (Option MessageWithUser) :=
  if (db.roomMembers.filter
      (fun m => m.room_id == input.room_id && m.user_id == userId)).length = 0 then
    (db, Except.error ("User is not a member of this room".data))
  else if input.message_type == MessageType.text && strFalsy input.content then
    (db, Except.error ("Text messages must have content".data))
  else if input.message_type != MessageType.text && strFalsy input.file_url then
    (db, Except.error ("File messages must have file_url".data))
  else
    let message : MessageRow :=
      { id := newId, room_id := input.room_id, user_id := userId,
        content := orNullStr input.content, message_type := input.message_type,
        file_url := orNullStr input.file_url, file_name := orNullStr input.file_name,
        file_size := orNullNat input.file_size, file_type := orNullStr input.file_type,
        is_deleted := false, deleted_at := none,
        created_at := now, updated_at := now }
    let db2 : Database := { db with messages := db.messages ++ [message] }
    let joined := (db2.messages.filter (fun m => m.id == newId)).filterMap
      (joinUser db2)
    (db2, Except.ok joined.head?)

/-- Stable insertion into a list sorted by `created_at` descending
(`orderBy(desc(messages.created_at))`). -/
def insertDescByCreated (m : MessageWithUser) :
    List MessageWithUser → List MessageWithUser
  | [] => [m]
  | x :: xs =>
    if m.created_at ≤ x.created_at then x :: insertDescByCreated m xs
    else m :: x :: xs

def sortDescByCreated : List MessageWithUser → List MessageWithUser
  | [] => []
  | x :: xs => insertDescByCreated x (sortDescByCreated xs)

/-- `getMessages` of get_messages.ts (lines 6-51): membership check,
then the room's messages joined with usernames, newest first, with
`LIMIT limit OFFSET offset`. -/
def getMessages (db : Database) (input : GetMessagesInput) (userId : Nat) :
    Except (List Char) (List MessageWithUser) :=
  if (db.roomMembers.filter
      (fun m => m.room_id == input.room_id && m.user_id == userId)).length = 0 then
    Except.error ("User is not a member of this room".data)
  else
    let rows := (db.messages.filter (fun m => m.room_id == input.room_id)).filterMap
      (joinUser db)
    Except.ok (((sortDescByCreated rows).drop input.offset).take input.limit)

/-- `deleteMessage` of delete_message.ts (lines 6-70): ownership lookup,
already-deleted check, then an update that sets `is_deleted`,
`deleted_at` and `updated_at` on every row whose id matches, and a
re-select joined with the username.  `nowDel` and `nowUpd` are the two
`new Date()` calls. -/
def deleteMessage (db : Database) (input : DeleteMessageInput) (userId : Nat)
    (nowDel nowUpd : Nat) :
    Database × Except (List Char) (Option MessageWithUser) :=
  match (db.messages.filter
      (fun m => m.id == input.message_id && m.user_id == userId)).head? with
  | none =>
    (db, Except.error
      ("Message not found or you are not authorized to delete this message".data))
  | some message =>
    if message.is_deleted then
      (db, Except.error ("Message is already deleted".data))
    else
      let db2 : Database :=
        { db with messages := db.messages.map (fun m =>
            if m.id == input.message_id then
              { m with
                is_deleted := true
                deleted_at := some nowDel
                updated_at := nowUpd }
            else m) }
      let joined := (db2.messages.filter
        (fun m => m.id == input.message_id)).filterMap (joinUser db2)
      (db2, Except.ok joined.head?)

/-! ## The tRPC router and context (index.ts)

`createContext` (index.ts, lines 108-113) is a stub: it reads no
authorization header and returns an empty context; every protected
procedure then runs its handler with the placeholder `const userId = 1`
(index.ts, lines 74-96). -/

/-- The context `createContext` returns: `{}` — no claims, no identity. -/
structure TrpcContext where
deriving DecidableEq

/-- `createContext()`: ignores the request (and any bearer token it
carries) and returns the empty context. -/
def createContext (_authHeader : Option (List Char)) : TrpcContext := {}

/-- The identity every protected procedure actually uses:
`const userId = 1; // Placeholder`. -/
def placeholderUserId (_ctx : TrpcContext) : Nat := 1

/-- The user id under which the `sendMessage` procedure executes for a
request presenting `authHeader` as its bearer token. -/
def sendMessageEffectiveUserId (authHeader : Option (List Char)) : Nat :=
  placeholderUserId (createContext authHeader)

/-! ## Spec-side signature definitions (for the refinement comparison)

The spec (§4.2) asks for "a keyed hash (HMAC-class or equivalent keyed
digest, not a bare hash of secret-concatenated-with-data)".  The first
definition below follows those words (textbook HMAC, block size 64); the
second follows the amended reading — the bare hash the code actually
computes, with the secret appended to the data. -/

/-- Modelled from the spec: an HMAC-class keyed digest over hash `H`
with block size 64 (the SHA-256 block size). -/
def hmacKeyedHash (H : List Nat → List Nat) (key msg : List Nat) : List Nat :=
  H ((hmacPadKey H key).map (fun b => b ^^^ 92) ++
    H ((hmacPadKey H key).map (fun b => b ^^^ 54) ++ msg))
where
  /-- Keys longer than the block are hashed, then zero-padded to the
  block size. -/
  hmacPadKey (H : List Nat → List Nat) (key : List Nat) : List Nat :=
    (if 64 < key.length then H key else key) ++
      List.replicate (64 - (if 64 < key.length then H key else key).length) 0

/-- Modelled from the spec (§4.2): the signature a keyed-digest design
would produce — HMAC of the joined `header.claims` string under the
secret. -/
def specKeyedSignature (H : List Nat → List Nat) (eh ep secret : List Char) :
    List Char :=
  base64urlEncode (hmacKeyedHash H (strBytes secret) (strBytes (eh ++ '.' :: ep)))

/-- The amended spec's words: a bare (unkeyed) hash of
`header.claims.secret` — the data with the secret appended. -/
def specBareAppendSignature (H : List Nat → List Nat) (eh ep secret : List Char) :
    List Char :=
  base64urlEncode (H (strBytes (eh ++ '.' :: ep ++ '.' :: secret)))

/-! ## Concrete stand-ins used by witnesses

The theorems below abstract over the cryptographic primitives; their
witnesses instantiate them with these small executable functions so the
hypotheses can be checked by `decide`. -/

/-- Witness stand-in for SHA-256: a length-and-sum fingerprint. -/
def hashExample (l : List Nat) : List Nat :=
  [l.length % 256, (l.foldl (fun a b => a + b) 0) % 256]

/-- Witness stand-in for PBKDF2: 64 bytes determined by the iteration
count, the salt bytes and the password. -/
def kdfExample : KDF := fun password salt iterations _keyLen =>
  (List.range 64).map (fun i =>
    (iterations + i + salt.foldl (fun a b => a + b) 0 +
      password.foldl (fun a c => a + c.toNat) 0) % 256)

/-! ## Handler-level lemmas -/

theorem bytesToHex_ne_nil (l : List Nat) (h : l ≠ []) : bytesToHex l ≠ [] := by
  intro hhex
  have hlen := bytesToHex_length l
  rw [hhex] at hlen
  simp only [List.length_nil] at hlen
  have : l.length = 0 := by omega
  exact h (List.length_eq_zero.mp this)

theorem isEmpty_false_of_ne_nil {l : List Char} (h : l ≠ []) :
    l.isEmpty = false := by
  rcases l with _ | ⟨c, cs⟩
  · exact absurd rfl h
  · rfl

/-- `verifyPassword` of login_user.ts on a well-formed two-field digest
reduces to the length-guarded `timingSafeEqual` of the two decoded
keys. -/
theorem loginVerifyCore_wf (kdf : KDF) (p salt k : List Char)
    (hsne : salt ≠ []) (hkne : k ≠ [])
    (hsfree : ∀ c ∈ salt, c ≠ ':') (hkfree : ∀ c ∈ k, c ≠ ':') :
    loginVerifyCore kdf p (salt ++ ':' :: k) =
      if (hexToBytes k).length =
          (hexToBytes (loginHashPassword kdf p salt).1).length then
        ctEqScan (hexToBytes k) (hexToBytes (loginHashPassword kdf p salt).1)
      else (false, 0) := by
  unfold loginVerifyCore
  rw [splitOnChar_append_sep ':' salt k hsfree, splitOnChar_sepFree ':' k hkfree]
  show (if salt.isEmpty || k.isEmpty then (false, 0)
    else if (hexToBytes k).length =
        (hexToBytes (loginHashPassword kdf p salt).1).length then
      ctEqScan (hexToBytes k) (hexToBytes (loginHashPassword kdf p salt).1)
    else (false, 0)) = _
  rw [isEmpty_false_of_ne_nil hsne, isEmpty_false_of_ne_nil hkne]
  rfl

/-- `verifyPassword` of register_user.ts accepts every digest produced
by register's own `hashPassword` (same salt text, same parameters). -/
theorem registerVerify_roundtrip (kdf : KDF) (p : List Char) (s : List Nat) :
    registerVerifyPassword kdf p (registerHashPassword kdf p s) = true := by
  unfold registerVerifyPassword registerVerifyCore registerHashPassword
  rw [splitOnChar_append_sep ':' _ _ (bytesToHex_ne_colon s),
    splitOnChar_sepFree ':' _ (bytesToHex_ne_colon _)]
  show (strictEq (bytesToHex (kdf p (strBytes (bytesToHex s)) 10000 64))
    (bytesToHex (kdf p (strBytes (bytesToHex s)) 10000 64))).1 = true
  exact strictEq_self _

/-! ## Claim theorems -/

/-- C1: the spec claims the password round-trip across the
registration/login boundary succeeds because verify recomputes the key
with identical KDF parameters.  The code does not: register_user.ts
hashes with the hex *text* of the salt and 10000 iterations, while
login_user.ts's `verifyPassword` recomputes with the hex-decoded raw
salt bytes and 100000 iterations.  For any KDF that distinguishes those
parameter tuples (a crypto-level certainty for PBKDF2), the login
handler rejects every digest the registration handler stored. -/
theorem C1_cross_handler_login_rejects_registered_digest
    (kdf : KDF) (p : List Char) (saltBytes : List Nat)
    (hsne : saltBytes ≠ [])
    (hsb : ∀ b ∈ saltBytes, b < 256)
    (hb1 : ∀ b ∈ kdf p (strBytes (bytesToHex saltBytes)) 10000 64, b < 256)
    (hb2 : ∀ b ∈ kdf p saltBytes 100000 64, b < 256)
    (hlen1 : (kdf p (strBytes (bytesToHex saltBytes)) 10000 64).length = 64)
    (hlen2 : (kdf p saltBytes 100000 64).length = 64)
    (hne : kdf p (strBytes (bytesToHex saltBytes)) 10000 64 ≠
      kdf p saltBytes 100000 64) :
    loginVerifyPassword kdf p (registerHashPassword kdf p saltBytes) = false := by
  unfold loginVerifyPassword registerHashPassword
  rw [loginVerifyCore_wf kdf p (bytesToHex saltBytes)
    (bytesToHex (kdf p (strBytes (bytesToHex saltBytes)) 10000 64))
    (bytesToHex_ne_nil _ hsne)
    (bytesToHex_ne_nil _ (by
      intro hk
      rw [hk] at hlen1
      simp at hlen1))
    (bytesToHex_ne_colon _) (bytesToHex_ne_colon _)]
  rw [hexToBytes_bytesToHex _ hb1]
  show (if (kdf p (strBytes (bytesToHex saltBytes)) 10000 64).length =
      (hexToBytes (bytesToHex
        (kdf p (hexToBytes (bytesToHex saltBytes)) 100000 64))).length then
    ctEqScan (kdf p (strBytes (bytesToHex saltBytes)) 10000 64)
      (hexToBytes (bytesToHex
        (kdf p (hexToBytes (bytesToHex saltBytes)) 100000 64)))
  else (false, 0)).1 = false
  rw [hexToBytes_bytesToHex saltBytes hsb, hexToBytes_bytesToHex _ hb2,
    hlen1, hlen2, if_pos rfl]
  cases hval : (ctEqScan (kdf p (strBytes (bytesToHex saltBytes)) 10000 64)
      (kdf p saltBytes 100000 64)).1 with
  | false => rfl
  | true => exact absurd ((ctEqScan_eq_true_iff _ _).mp hval) hne

/-- C1 witness: the failing input evaluated with the stand-in KDF, whose
iteration argument is observable in its output. -/
theorem C1_cross_handler_login_rejects_registered_digest_witness :
    (([1, 2, 3] : List Nat) ≠ []) ∧
    loginVerifyPassword kdfExample ['p', 'w']
      (registerHashPassword kdfExample ['p', 'w'] [1, 2, 3]) = false :=
  ⟨by decide,
    C1_cross_handler_login_rejects_registered_digest kdfExample ['p', 'w']
      [1, 2, 3] (by decide) (by decide) (by decide) (by decide) (by decide)
      (by decide) (by decide)⟩

/-- C2: the spec claims a token verify operation runs before any
protected operation and fails on malformed tokens.  In index.ts,
`createContext` returns `{}` and every protected procedure runs with the
placeholder `userId = 1`: presenting a token that does not even split
into three parts changes nothing — the operation proceeds, and the
outcome is identical whatever token is presented. -/
theorem C2_protected_ops_proceed_without_token_verification
    (token : List Char) (_hmalformed : (splitOnChar '.' token).length ≠ 3) :
    sendMessageEffectiveUserId (some token) = 1 ∧
    (∀ other : Option (List Char),
      sendMessageEffectiveUserId other = sendMessageEffectiveUserId (some token)) :=
  ⟨rfl, fun _ => rfl⟩

/-- C2 witness: the malformed bearer token `"garbage"`. -/
theorem C2_protected_ops_proceed_without_token_verification_witness :
    ((splitOnChar '.' "garbage".data).length ≠ 3) ∧
    (sendMessageEffectiveUserId (some "garbage".data) = 1 ∧
      (∀ other : Option (List Char),
        sendMessageEffectiveUserId other =
          sendMessageEffectiveUserId (some "garbage".data))) :=
  ⟨by decide,
    C2_protected_ops_proceed_without_token_verification "garbage".data (by decide)⟩

/-- C3 counterexample: a registration token issued at time 1000 carries
`exp - iat = 604800` (seven days), not the claimed 86400. -/
theorem C3_registration_ttl_counterexample :
    decodeTokenIatExp (createJWT hashExample ['s']
      [(['u', 's', 'e', 'r', 'I', 'd'], JVal.num 42)] 1000) =
      some (1000, 1000 + 604800) ∧ (1000 + 604800) - 1000 ≠ 86400 :=
  ⟨decodeTokenIatExp_createJWT hashExample ['s']
    [(['u', 's', 'e', 'r', 'I', 'd'], JVal.num 42)] 1000 (by decide), by decide⟩

/-- C3 (amended): login tokens (`createToken`) carry
`exp - iat = 86400` (24 hours); registration tokens (`createJWT`) carry
`exp - iat = 604800` (7 days); both embed `iat = now` and integer
fields. -/
theorem C3_ttl_amended (H : List Nat → List Nat) (secret : List Char)
    (claims : List (List Char × JVal)) (now : Nat)
    (hwf : wfClaimsB claims = true) :
    decodeTokenIatExp (createToken H secret claims now) =
      some (now, now + 86400) ∧
    decodeTokenIatExp (createJWT H secret claims now) =
      some (now, now + 604800) :=
  ⟨decodeTokenIatExp_createToken H secret claims now hwf,
    decodeTokenIatExp_createJWT H secret claims now hwf⟩

/-- C3 witness: a concrete claims map at issue time 1000. -/
theorem C3_ttl_amended_witness :
    wfClaimsB [(['u'], JVal.num 42), (['e'], JVal.str ['a'])] = true ∧
    (decodeTokenIatExp (createToken hashExample ['s']
        [(['u'], JVal.num 42), (['e'], JVal.str ['a'])] 1000) =
      some (1000, 1000 + 86400) ∧
    decodeTokenIatExp (createJWT hashExample ['s']
        [(['u'], JVal.num 42), (['e'], JVal.str ['a'])] 1000) =
      some (1000, 1000 + 604800)) :=
  ⟨by decide,
    C3_ttl_amended hashExample ['s']
      [(['u'], JVal.num 42), (['e'], JVal.str ['a'])] 1000 (by decide)⟩

/-- C4 counterexample: with an injective stand-in hash, the signature
the code computes differs from the HMAC-class keyed digest of the same
joined string under the same secret — so the signature is not an
HMAC-class keyed hash. -/
theorem C4_not_keyed_hash_counterexample :
    tokenSignature hashExample ['a'] ['b'] ['k'] ≠
      specKeyedSignature hashExample ['a'] ['b'] ['k'] := by decide

/-- C4 (amended): for every hash, secret, claims and time, the third
part of an issued token is the *bare* hash of
`header.claims.secret` — the data with the secret appended — not a keyed
digest. -/
theorem C4_signature_is_bare_appended_hash (H : List Nat → List Nat)
    (secret : List Char) (claims : List (List Char × JVal)) (now : Nat) :
    splitOnChar '.' (createToken H secret claims now) =
      [base64urlEncode (strBytes (jobj tokenHeader)),
       base64urlEncode (strBytes (payloadChars claims now (now + 24 * 60 * 60))),
       specBareAppendSignature H
         (base64urlEncode (strBytes (jobj tokenHeader)))
         (base64urlEncode (strBytes (payloadChars claims now (now + 24 * 60 * 60))))
         secret] ∧
    splitOnChar '.' (createJWT H secret claims now) =
      [base64urlEncode (strBytes (jobj tokenHeader)),
       base64urlEncode (strBytes (payloadChars claims now (now + 7 * 24 * 60 * 60))),
       specBareAppendSignature H
         (base64urlEncode (strBytes (jobj tokenHeader)))
         (base64urlEncode (strBytes (payloadChars claims now (now + 7 * 24 * 60 * 60))))
         secret] :=
  ⟨splitOnChar_token _ _ _ (base64urlEncode_ne_dot _) (base64urlEncode_ne_dot _)
      (fun c hc => base64urlEncode_ne_dot _ c hc),
    splitOnChar_token _ _ _ (base64urlEncode_ne_dot _) (base64urlEncode_ne_dot _)
      (fun c hc => base64urlEncode_ne_dot _ c hc)⟩

/-- C5 counterexample: two stored digests with equal-length key fields
against the same password and salt, where register_user.ts's
`verifyPassword` performs 1 comparison step for a first-character
mismatch but 128 steps for a last-character mismatch — its `===`
comparison short-circuits, so its timing depends on where the keys first
differ. -/
theorem C5_register_compare_short_circuits :
    registerVerifyPasswordSteps kdfExample ['p', 'w']
      (['a', 'a'] ++ ':' :: List.replicate 128 'z') = 1 ∧
    registerVerifyPasswordSteps kdfExample ['p', 'w']
      (['a', 'a'] ++ ':' :: ((bytesToHex (kdfExample ['p', 'w']
        (strBytes ['a', 'a']) 10000 64)).take 127 ++ ['z'])) = 128 ∧
    (List.replicate 128 'z' : List Char).length =
      ((bytesToHex (kdfExample ['p', 'w'] (strBytes ['a', 'a']) 10000 64)).take 127
        ++ ['z']).length := by
  set_option maxRecDepth 4000 in decide

/-- C5 (amended): login_user.ts's `verifyPassword` is the constant-time
one — its byte-comparison count depends only on the lengths of the
decoded keys, never on their contents or on where they first differ;
register_user.ts's `verifyPassword` compares with short-circuiting
`===`. -/
theorem C5_login_compare_constant_time (kdf : KDF) (p salt k1 k2 : List Char)
    (hsne : salt ≠ []) (hk1ne : k1 ≠ []) (hk2ne : k2 ≠ [])
    (hsfree : ∀ c ∈ salt, c ≠ ':') (hk1free : ∀ c ∈ k1, c ≠ ':')
    (hk2free : ∀ c ∈ k2, c ≠ ':')
    (hlen : (hexToBytes k1).length = (hexToBytes k2).length) :
    loginVerifyPasswordSteps kdf p (salt ++ ':' :: k1) =
      loginVerifyPasswordSteps kdf p (salt ++ ':' :: k2) := by
  unfold loginVerifyPasswordSteps
  rw [loginVerifyCore_wf kdf p salt k1 hsne hk1ne hsfree hk1free,
    loginVerifyCore_wf kdf p salt k2 hsne hk2ne hsfree hk2free]
  by_cases hc : (hexToBytes k1).length =
      (hexToBytes (loginHashPassword kdf p salt).1).length
  · have hc2 : (hexToBytes k2).length =
        (hexToBytes (loginHashPassword kdf p salt).1).length := by omega
    rw [if_pos hc, if_pos hc2, ctEqScan_steps _ _ hc, ctEqScan_steps _ _ hc2, hlen]
  · have hc2 : ¬((hexToBytes k2).length =
        (hexToBytes (loginHashPassword kdf p salt).1).length) := by omega
    rw [if_neg hc, if_neg hc2]

/-- C5 witness: two equal-length key fields under the same salt. -/
theorem C5_login_compare_constant_time_witness :
    (['a'] : List Char) ≠ [] ∧
    loginVerifyPasswordSteps kdfExample ['p', 'w'] (['a'] ++ ':' :: ['0', '0']) =
      loginVerifyPasswordSteps kdfExample ['p', 'w'] (['a'] ++ ':' :: ['f', 'f']) :=
  ⟨by decide,
    C5_login_compare_constant_time kdfExample ['p', 'w'] ['a'] ['0', '0'] ['f', 'f']
      (by decide) (by decide) (by decide) (by decide) (by decide) (by decide)
      (by decide)⟩

/-- C6: two issue calls with the same claims at strictly increasing
wall-clock times produce different token strings, and the decoded
`issued_at` of the earlier token is strictly below the later one (the
decoded values are the issue times themselves).  Holds for both the
login issuer (`createToken`) and the registration issuer (`createJWT`). -/
theorem C6_sequential_issues_differ (H : List Nat → List Nat) (secret : List Char)
    (claims : List (List Char × JVal)) (t1 t2 : Nat)
    (hwf : wfClaimsB claims = true) (hlt : t1 < t2) :
    createToken H secret claims t1 ≠ createToken H secret claims t2 ∧
    decodeTokenIatExp (createToken H secret claims t1) = some (t1, t1 + 86400) ∧
    decodeTokenIatExp (createToken H secret claims t2) = some (t2, t2 + 86400) ∧
    createJWT H secret claims t1 ≠ createJWT H secret claims t2 ∧
    decodeTokenIatExp (createJWT H secret claims t1) = some (t1, t1 + 604800) ∧
    decodeTokenIatExp (createJWT H secret claims t2) = some (t2, t2 + 604800) := by
  have h1 := decodeTokenIatExp_createToken H secret claims t1 hwf
  have h2 := decodeTokenIatExp_createToken H secret claims t2 hwf
  have h3 := decodeTokenIatExp_createJWT H secret claims t1 hwf
  have h4 := decodeTokenIatExp_createJWT H secret claims t2 hwf
  refine ⟨?_, h1, h2, ?_, h3, h4⟩
  · intro heq
    rw [heq, h2] at h1
    have hpair : (t2, t2 + 86400) = (t1, t1 + 86400) := Option.some.inj h1
    have : t2 = t1 := ((Prod.mk.injEq _ _ _ _).mp hpair).1
    omega
  · intro heq
    rw [heq, h4] at h3
    have hpair : (t2, t2 + 604800) = (t1, t1 + 604800) := Option.some.inj h3
    have : t2 = t1 := ((Prod.mk.injEq _ _ _ _).mp hpair).1
    omega

/-- C6 witness: identical claims issued at times 1000 and 2000. -/
theorem C6_sequential_issues_differ_witness :
    wfClaimsB [(['u'], JVal.num 42)] = true ∧ 1000 < 2000 ∧
    createToken hashExample ['s'] [(['u'], JVal.num 42)] 1000 ≠
      createToken hashExample ['s'] [(['u'], JVal.num 42)] 2000 :=
  ⟨by decide, by decide,
    (C6_sequential_issues_differ hashExample ['s'] [(['u'], JVal.num 42)]
      1000 2000 (by decide) (by decide)).1⟩

/-- C7: two register-side hashes of the same password under different
fresh salts give different digest strings, yet register's own
`verifyPassword` accepts the password against both. -/
theorem C7_fresh_salts_distinct_digests_both_verify (kdf : KDF) (p : List Char)
    (s1 s2 : List Nat) (h1 : ∀ b ∈ s1, b < 256) (h2 : ∀ b ∈ s2, b < 256)
    (hne : s1 ≠ s2) :
    registerHashPassword kdf p s1 ≠ registerHashPassword kdf p s2 ∧
    registerVerifyPassword kdf p (registerHashPassword kdf p s1) = true ∧
    registerVerifyPassword kdf p (registerHashPassword kdf p s2) = true := by
  refine ⟨?_, registerVerify_roundtrip kdf p s1, registerVerify_roundtrip kdf p s2⟩
  intro heq
  unfold registerHashPassword at heq
  have hs := congrArg (splitOnChar ':') heq
  rw [splitOnChar_append_sep ':' _ _ (bytesToHex_ne_colon s1),
    splitOnChar_append_sep ':' _ _ (bytesToHex_ne_colon s2)] at hs
  have hhead : bytesToHex s1 = bytesToHex s2 := ((List.cons.injEq _ _ _ _).mp hs).1
  have heqs : s1 = s2 := by
    have hh := congrArg hexToBytes hhead
    rwa [hexToBytes_bytesToHex s1 h1, hexToBytes_bytesToHex s2 h2] at hh
  exact hne heqs

/-- C7 witness: two distinct concrete salts. -/
theorem C7_fresh_salts_distinct_digests_both_verify_witness :
    (([1, 2] : List Nat) ≠ [3, 4]) ∧
    registerHashPassword kdfExample ['p', 'w'] [1, 2] ≠
      registerHashPassword kdfExample ['p', 'w'] [3, 4] :=
  ⟨by decide,
    (C7_fresh_salts_distinct_digests_both_verify kdfExample ['p', 'w'] [1, 2] [3, 4]
      (by decide) (by decide) (by decide)).1⟩

/-- C8 counterexample: a stored digest with three `':'`-delimited
fields — wrong field count, hence malformed per the claim — on which
login_user.ts's `verifyPassword` returns `true`, not `false`: the
destructuring `const [salt, hash] = storedHash.split(':')` silently
ignores every field after the second. -/
theorem C8_extra_field_digest_accepted :
    (splitOnChar ':' (['a', 'a'] ++ ':' ::
      ((loginHashPassword kdfExample ['p', 'w'] ['a', 'a']).1 ++
        ':' :: ['z', 'z']))).length = 3 ∧
    loginVerifyPassword kdfExample ['p', 'w']
      (['a', 'a'] ++ ':' ::
        ((loginHashPassword kdfExample ['p', 'w'] ['a', 'a']).1 ++
          ':' :: ['z', 'z'])) = true := by
  set_option maxRecDepth 4000 in decide

theorem loginVerifyCore_guard (kdf : KDF) (p stored salt hashF : List Char)
    (rest2 : List (List Char))
    (hp : splitOnChar ':' stored = salt :: hashF :: rest2)
    (hcond : (salt.isEmpty || hashF.isEmpty) = true) :
    loginVerifyCore kdf p stored = (false, 0) := by
  unfold loginVerifyCore
  rw [hp]
  show (if salt.isEmpty || hashF.isEmpty then ((false, 0) : Bool × Nat) else _) =
    (false, 0)
  rw [if_pos hcond]

/-- C8 (amended): a digest without a `':'` (so the key field is
`undefined`) or with an empty first or second field is rejected by
login_user.ts's `verifyPassword`, which returns `false` and (being a
total function here, mirroring the guard plus `try/catch`) never raises;
but a digest with *extra* fields after the second is not rejected — the
extra fields are ignored (see the counterexample). -/
theorem C8_missing_or_empty_fields_rejected (kdf : KDF) (p stored : List Char)
    (h : (splitOnChar ':' stored).length < 2 ∨
      ((splitOnChar ':' stored).headD []).isEmpty = true ∨
      (((splitOnChar ':' stored).drop 1).headD []).isEmpty = true) :
    loginVerifyPassword kdf p stored = false := by
  unfold loginVerifyPassword
  rcases hp : splitOnChar ':' stored with _ | ⟨salt, rest⟩
  · unfold loginVerifyCore
    rw [hp]
  · rcases rest with _ | ⟨hashF, rest2⟩
    · unfold loginVerifyCore
      rw [hp]
      rfl
    · rw [hp] at h
      have hcond : (salt.isEmpty || hashF.isEmpty) = true := by
        rcases h with h | h | h
        · simp only [List.length_cons] at h
          exact absurd h (by omega)
        · simp only [List.headD_cons] at h
          rw [h]
          rfl
        · simp only [List.drop_succ_cons, List.drop_zero, List.headD_cons] at h
          rw [h]
          simp
      rw [loginVerifyCore_guard kdf p stored salt hashF rest2 hp hcond]

/-- C8 witness: the delimiter-free digest `"invalid"`. -/
theorem C8_missing_or_empty_fields_rejected_witness :
    ((splitOnChar ':' "invalid".data).length < 2 ∨
      ((splitOnChar ':' "invalid".data).headD []).isEmpty = true ∨
      (((splitOnChar ':' "invalid".data).drop 1).headD []).isEmpty = true) ∧
    loginVerifyPassword kdfExample ['p', 'w'] "invalid".data = false :=
  ⟨Or.inl (by decide),
    C8_missing_or_empty_fields_rejected kdfExample ['p', 'w'] "invalid".data
      (Or.inl (by decide))⟩

/-- C9: with no membership row `(room_id, user_id)` for the requesting
user — in particular whenever the room id appears in no membership row
because the room does not exist (given the foreign-key invariant that
every membership row references an existing room) — `sendMessage` and
`getMessages` both throw `"User is not a member of this room"`, and
`sendMessage` leaves the whole database, in particular the messages
table, unchanged. -/
theorem C9_membership_required (db : Database) (sin : SendMessageInput)
    (gin : GetMessagesInput) (userId newId now : Nat)
    (hroom : gin.room_id = sin.room_id)
    (h : (∀ m ∈ db.roomMembers, ¬(m.room_id = sin.room_id ∧ m.user_id = userId)) ∨
      ((∀ m ∈ db.roomMembers, ∃ r ∈ db.rooms, r.id = m.room_id) ∧
        (∀ r ∈ db.rooms, r.id ≠ sin.room_id))) :
    sendMessage db sin userId newId now =
      (db, Except.error ("User is not a member of this room".data)) ∧
    getMessages db gin userId =
      Except.error ("User is not a member of this room".data) := by
  have hnom : ∀ m ∈ db.roomMembers,
      ¬(m.room_id = sin.room_id ∧ m.user_id = userId) := by
    rcases h with h | ⟨hfk, hnoroom⟩
    · exact h
    · intro m hm hmm
      rcases hfk m hm with ⟨r, hrmem, hrid⟩
      exact hnoroom r hrmem (by rw [hrid, hmm.1])
  have hfil : db.roomMembers.filter
      (fun m => m.room_id == sin.room_id && m.user_id == userId) = [] := by
    rw [List.filter_eq_nil_iff]
    intro m hm
    simp only [Bool.and_eq_true, beq_iff_eq]
    intro hmm
    exact hnom m hm hmm
  constructor
  · unfold sendMessage
    rw [hfil]
    rfl
  · unfold getMessages
    rw [hroom, hfil]
    rfl

/-- Concrete example rows for the C9 and C10 witnesses. -/
def rowC9 : MessageRow where
  id := 9
  room_id := 5
  user_id := 1
  content := some ['x']
  message_type := MessageType.text
  file_url := none
  file_name := none
  file_size := none
  file_type := none
  is_deleted := false
  deleted_at := none
  created_at := 0
  updated_at := 0

def dbC9 : Database where
  users := []
  rooms := []
  roomMembers := []
  messages := [rowC9]

def sinC9 : SendMessageInput where
  room_id := 5
  content := some ['h', 'i']
  message_type := MessageType.text
  file_url := none
  file_name := none
  file_size := none
  file_type := none

def ginC9 : GetMessagesInput where
  room_id := 5
  limit := 50
  offset := 0

/-- C9 witness: a database with one message, no rooms and no
memberships; both handlers reject and the state is untouched. -/
theorem C9_membership_required_witness :
    sendMessage dbC9 sinC9 1 10 100 =
      (dbC9, Except.error ("User is not a member of this room".data)) ∧
    getMessages dbC9 ginC9 1 =
      Except.error ("User is not a member of this room".data) :=
  C9_membership_required dbC9 sinC9 ginC9 1 10 100 rfl (Or.inl (by decide))

/-- C10: a successful `deleteMessage` on an owned, not-yet-deleted
message marks exactly the matching row `is_deleted := true`,
`deleted_at := some nowDel`, `updated_at := nowUpd`, preserves every
other field of that row (id, room_id, user_id, content — kept for
audit — message_type, the four file fields, created_at), returns a
success, and keeps every other row in the table. -/
theorem C10_delete_marks_and_preserves (db : Database)
    (input : DeleteMessageInput) (userId nowDel nowUpd : Nat) (m : MessageRow)
    (hm : m ∈ db.messages) (hid : m.id = input.message_id)
    (huser : m.user_id = userId) (hnotdel : m.is_deleted = false)
    (huniq : ∀ m2 ∈ db.messages, m2.id = input.message_id → m2 = m) :
    (∃ r, (deleteMessage db input userId nowDel nowUpd).2 = Except.ok r) ∧
    (deleteMessage db input userId nowDel nowUpd).1.messages =
      db.messages.map (fun m2 =>
        if m2.id == input.message_id then
          { m2 with
            is_deleted := true
            deleted_at := some nowDel
            updated_at := nowUpd }
        else m2) ∧
    (∃ m3 ∈ (deleteMessage db input userId nowDel nowUpd).1.messages,
      m3.id = m.id ∧ m3.room_id = m.room_id ∧ m3.user_id = m.user_id ∧
      m3.content = m.content ∧ m3.message_type = m.message_type ∧
      m3.file_url = m.file_url ∧ m3.file_name = m.file_name ∧
      m3.file_size = m.file_size ∧ m3.file_type = m.file_type ∧
      m3.created_at = m.created_at ∧
      m3.is_deleted = true ∧ m3.deleted_at = some nowDel ∧
      m3.updated_at = nowUpd) ∧
    (∀ m2 ∈ db.messages, m2.id ≠ input.message_id →
      m2 ∈ (deleteMessage db input userId nowDel nowUpd).1.messages) := by
  have hmf : m ∈ db.messages.filter
      (fun m2 => m2.id == input.message_id && m2.user_id == userId) :=
    List.mem_filter.mpr ⟨hm, by simp [hid, huser]⟩
  have hhead : (db.messages.filter
      (fun m2 => m2.id == input.message_id && m2.user_id == userId)).head? =
        some m := by
    rcases hfs : db.messages.filter
        (fun m2 => m2.id == input.message_id && m2.user_id == userId) with
      _ | ⟨x, xs⟩
    · rw [hfs] at hmf
      exact absurd hmf (List.not_mem_nil m)
    · have hx : x ∈ db.messages.filter
          (fun m2 => m2.id == input.message_id && m2.user_id == userId) := by
        rw [hfs]
        exact List.mem_cons_self x xs
      have hx2 := List.mem_filter.mp hx
      have hxid : x.id = input.message_id := by
        have hb := hx2.2
        simp only [Bool.and_eq_true, beq_iff_eq] at hb
        exact hb.1
      rw [hfs, huniq x hx2.1 hxid]
      rfl
  have hdel : deleteMessage db input userId nowDel nowUpd =
      ({ db with messages := db.messages.map (fun m2 =>
          if m2.id == input.message_id then
            { m2 with
              is_deleted := true
              deleted_at := some nowDel
              updated_at := nowUpd }
          else m2) },
        Except.ok ((({ db with messages := db.messages.map (fun m2 =>
          if m2.id == input.message_id then
            { m2 with
              is_deleted := true
              deleted_at := some nowDel
              updated_at := nowUpd }
          else m2) } : Database).messages.filter
            (fun m2 => m2.id == input.message_id)).filterMap
              (joinUser { db with messages := db.messages.map (fun m2 =>
          if m2.id == input.message_id then
            { m2 with
              is_deleted := true
              deleted_at := some nowDel
              updated_at := nowUpd }
          else m2) })).head?) := by
    unfold deleteMessage
    rw [hhead]
    show (if m.is_deleted = true then
        (db, Except.error ("Message is already deleted".data))
      else _) = _
    rw [hnotdel]
    rfl
  refine ⟨⟨_, by rw [hdel]⟩, by rw [hdel], ?_, ?_⟩
  · refine ⟨{ m with
        is_deleted := true
        deleted_at := some nowDel
        updated_at := nowUpd }, ?_, rfl, rfl, rfl, rfl, rfl, rfl, rfl, rfl,
      rfl, rfl, rfl, rfl, rfl⟩
    rw [hdel]
    refine List.mem_map.mpr ⟨m, hm, ?_⟩
    have hb : (m.id == input.message_id) = true := by simp [hid]
    rw [hb]
    rfl
  · intro m2 hm2 hne2
    rw [hdel]
    refine List.mem_map.mpr ⟨m2, hm2, ?_⟩
    have hb : (m2.id == input.message_id) = false := by
      simp only [beq_eq_false_iff_ne, ne_eq]
      exact hne2
    rw [hb]
    rfl

def rowC10 : MessageRow where
  id := 7
  room_id := 2
  user_id := 1
  content := some ['h', 'i']
  message_type := MessageType.text
  file_url := none
  file_name := none
  file_size := none
  file_type := none
  is_deleted := false
  deleted_at := none
  created_at := 11
  updated_at := 12

def dbC10 : Database where
  users := []
  rooms := []
  roomMembers := []
  messages := [rowC10]

/-- C10 witness: a one-row database owned by user 1. -/
theorem C10_delete_marks_and_preserves_witness :
    ∃ r, (deleteMessage dbC10 { message_id := 7 } 1 90 91).2 = Except.ok r :=
  (C10_delete_marks_and_preserves dbC10 { message_id := 7 } 1 90 91 rowC10
    (by decide) (by decide) (by decide) (by decide) (by decide)).1

end Chat
